import Mathlib

/-!
Verification development for the filehog storage agent.

The definitions below are a shallow embedding of the Rust sources:
storage.rs (record store and mutators), error.rs (retry with backoff),
file_processor.rs (lifecycle orchestrator, scan, renewal policy),
monitor.rs (watcher eligibility and remove handling), codex.rs (remote
client structures and endpoint selection), config.rs (storage parameters).

Modelling conventions: timestamps are integers counting seconds (chrono
DateTime comparisons and Duration arithmetic are exact, so any linear
time scale is faithful); file system paths are lists of components, and a
component is a list of characters, so that the Rust extension handling
(Path::with_extension, Path::extension) can be embedded exactly; the
registry HashMap is an association list whose store operation replaces
the first entry with the given key or appends a new one; remote calls are
resolved through an explicit environment holding the outcome of each
retry-wrapped operation; the u64 sleep computation 2.pow(attempt) is
embedded with an explicit reduction modulo 2 to the 64.
-/

/-- Lifecycle states of a file record, from storage.rs (enum FileStatus). -/
inductive FileStatus where
  | New
  | Uploading
  | Creating
  | Active
  | Failed
  | Expired
  deriving DecidableEq, Repr

/-- A path component (file or directory name), as its character list. -/
abbrev FName := List Char

/-- A file system path, as its list of components. -/
abbrev FPath := List FName

/-- Per-file record, from storage.rs (struct FileRecord). -/
structure FileRecord where
  file_path : FPath
  original_cid : Option String
  storage_cid : Option String
  purchase_id : Option String
  created_at : Int
  updated_at : Int
  codex_endpoint : Option String
  status : FileStatus
  error : Option String
  deriving DecidableEq, Repr

/-- The in-memory registry of records, keyed by absolute file path. -/
abbrev Registry := List (FPath × FileRecord)

/-- Association list lookup (HashMap::get). -/
def Registry.lookup : Registry → FPath → Option FileRecord
  | [], _ => none
  | (k, r) :: rest, p => if k = p then some r else Registry.lookup rest p

/-- Association list insert or replace (HashMap::insert semantics: the
first entry with the key is replaced, otherwise the pair is appended). -/
def Registry.store : Registry → FPath → FileRecord → Registry
  | [], p, r => [(p, r)]
  | (k, r0) :: rest, p, r =>
    if k = p then (k, r) :: rest else (k, r0) :: Registry.store rest p r

/-- chrono Duration::days, in seconds. -/
def chronoDays (d : Int) : Int := d * 86400

/-- chrono Duration::hours, in seconds. -/
def chronoHours (h : Int) : Int := h * 3600

/-- StorageManager::create_new_record (storage.rs lines 193 to 206). -/
def create_new_record (file_path : FPath) (now : Int) : FileRecord :=
  { file_path := file_path
    original_cid := none
    storage_cid := none
    purchase_id := none
    created_at := now
    updated_at := now
    codex_endpoint := none
    status := FileStatus.New
    error := none }

/-- StorageManager::update_record_status (storage.rs lines 208 to 212). -/
def update_record_status (r : FileRecord) (status : FileStatus)
    (error : Option String) (now : Int) : FileRecord :=
  { r with status := status, error := error, updated_at := now }

/-- StorageManager::update_record_upload (storage.rs lines 214 to 219). -/
def update_record_upload (r : FileRecord) (cid : String) (endpoint : String)
    (now : Int) : FileRecord :=
  { r with original_cid := some cid
           codex_endpoint := some endpoint
           status := FileStatus.Uploading
           updated_at := now }

/-- StorageManager::update_record_purchase (storage.rs lines 221 to 226). -/
def update_record_purchase (r : FileRecord) (purchase_id : String)
    (storage_cid : String) (now : Int) : FileRecord :=
  { r with purchase_id := some purchase_id
           storage_cid := some storage_cid
           status := FileStatus.Creating
           updated_at := now }

/-- StorageManager::mark_record_active (storage.rs lines 228 to 231). -/
def mark_record_active (r : FileRecord) (now : Int) : FileRecord :=
  { r with status := FileStatus.Active, updated_at := now }

/-- StorageManager::needs_new_purchase (storage.rs lines 233 to 242).
The Active case compares created_at plus a hard coded six day window
against the current time and the supplied buffer. -/
def needs_new_purchase (r : FileRecord) (expiry_buffer : Int) (now : Int) : Bool :=
  match r.status with
  | FileStatus.Failed => true
  | FileStatus.Expired => true
  | FileStatus.Active =>
    decide (r.created_at + chronoDays 6 - now < expiry_buffer)
  | _ => false

/-- Storage parameters, from config.rs (struct StorageParams). -/
structure StorageParams where
  price : Nat
  nodes : Nat
  tolerance : Nat
  proof_probability : Nat
  duration_days : Nat
  expiry_minutes : Nat
  collateral : Nat
  deriving DecidableEq, Repr

/-- The config.rs Default instance for StorageParams. -/
def defaultStorageParams : StorageParams :=
  { price := 1000, nodes := 10, tolerance := 5, proof_probability := 100
    duration_days := 6, expiry_minutes := 60, collateral := 1 }

/-- FileProcessor::needs_renewal (file_processor.rs lines 207 to 210):
delegates to needs_new_purchase with a one hour buffer. The processor
carries the configuration, which this function does not consult. -/
def needs_renewal (_config : StorageParams) (r : FileRecord) (now : Int) : Bool :=
  needs_new_purchase r (chronoHours 1) now

/-- codex.rs struct ContentInfo. -/
structure ContentInfo where
  cid : String
  deriving DecidableEq, Repr

/-- codex.rs struct StorageRequestInfo. -/
structure StorageRequestInfo where
  content : ContentInfo
  deriving DecidableEq, Repr

/-- codex.rs struct PurchaseResponse. -/
structure PurchaseResponse where
  purchase_id : String
  request : StorageRequestInfo
  deriving DecidableEq, Repr

/-- codex.rs struct PurchaseStatus. -/
structure PurchaseStatus where
  state : String
  request : StorageRequestInfo
  deriving DecidableEq, Repr

/-- codex.rs struct Client: configured endpoints plus the round robin
counter. -/
structure Client where
  endpoints : List String
  current_endpoint : Nat
  deriving DecidableEq, Repr

/-- Client::get_endpoint (codex.rs lines 64 to 67): pick the endpoint at
the counter modulo the endpoint count, and advance the counter. -/
def Client.get_endpoint (c : Client) : Option String × Client :=
  (c.endpoints.get? (c.current_endpoint % c.endpoints.length),
   { c with current_endpoint := c.current_endpoint + 1 })

/-- The distinguished payment required message from codex.rs line 161. -/
def insufficient_tokens_message : String :=
  "Insufficient tokens to create storage request"

/-- Outcome trace of retry_with_backoff: final result, number of times
the operation was invoked, and the sleep durations (in seconds) between
attempts, in order. -/
structure RetryTrace (E A : Type) where
  result : Except E A
  attempts : Nat
  sleeps : List Nat
  deriving Repr

/-- Loop body of retry_with_backoff (error.rs lines 17 to 31). The
operation is modelled as the sequence of outcomes of its successive
invocations. The second argument is the index of the current attempt,
the third the number of attempts still allowed after the current one
(max_retries minus attempt in the source loop). The sleep duration is
the u64 value 2.pow(attempt), reduced modulo 2 to the 64. -/
def retry_go (op : Nat → Except E A) : Nat → Nat → RetryTrace E A
  | attempt, 0 =>
    match op attempt with
    | Except.ok a => ⟨Except.ok a, 1, []⟩
    | Except.error e => ⟨Except.error e, 1, []⟩
  | attempt, remaining + 1 =>
    match op attempt with
    | Except.ok a => ⟨Except.ok a, 1, []⟩
    | Except.error _ =>
      let t := retry_go op (attempt + 1) remaining
      ⟨t.result, t.attempts + 1, (2 ^ attempt % 2 ^ 64) :: t.sleeps⟩

/-- retry_with_backoff (error.rs lines 5 to 34): run the operation for
attempts 0 up to max_retries, stopping at the first success, sleeping
between failed attempts, and returning the last error on exhaustion. -/
def retry_with_backoff (op : Nat → Except E A) (max_retries : Nat) : RetryTrace E A :=
  retry_go op 0 max_retries

/-- Tag for each registry mutator invoked during process_file. -/
inductive Mutation where
  | created
  | failedMark
  | uploaded
  | purchased
  | activated
  deriving DecidableEq, Repr

/-- Remote operations issued by the orchestrator, one entry per
retry-wrapped pipeline step or polling loop. -/
inductive RemoteOp where
  | uploadOp (path : FPath)
  | purchaseOp (cid : String)
  | waitOp (purchase_id : String)
  deriving DecidableEq, Repr

/-- Environment for one process_file invocation: the configuration, the
outcome of each retry-wrapped remote step, the endpoint label the client
round robin actually selected for the upload (internal to
Client::upload_file, which only returns the cid), and the wall clock
value observed at each mutation site. -/
structure ProcessEnv where
  storage_params : StorageParams
  upload_result : Except String String
  served_endpoint : String
  purchase_result : Except String PurchaseResponse
  wait_result : Except String PurchaseStatus
  now_entry : Int
  now_check : Int
  now_upload : Int
  now_purchase : Int
  now_wait : Int
  now_handler : Int
  deriving Repr

/-- Result of one process_file invocation: the returned value, the
final registry, the remote operations performed, and the record value
after each registry mutator call, in order, tagged by mutator. -/
structure ProcessResult where
  result : Except String Unit
  registry : Registry
  calls : List RemoteOp
  trace : List (Mutation × FileRecord)
  deriving Repr

instance : DecidableEq (Except String Unit) := fun a b =>
  match a, b with
  | Except.ok x, Except.ok y => isTrue (by cases x; cases y; rfl)
  | Except.ok _, Except.error _ => isFalse (by simp)
  | Except.error _, Except.ok _ => isFalse (by simp)
  | Except.error x, Except.error y =>
    if h : x = y then isTrue (by rw [h]) else isFalse (by simp [h])

deriving instance DecidableEq for ProcessResult

/-- Step four of process_file (file_processor.rs lines 182 to 202): wait
for the purchase to start, then either mark the record active or mark it
failed. The function g3 models concurrent registry activity interleaved
before the write lock is reacquired; the none result models the panic of
records.get_mut(file_path).unwrap(). -/
def pf_wait_step (g3 : Registry → Registry) (reg : Registry) (path : FPath)
    (trace : List (Mutation × FileRecord)) (cid : String)
    (resp : PurchaseResponse) (env : ProcessEnv) : Option ProcessResult :=
  match env.wait_result with
  | Except.ok _ =>
    let reg6 := g3 reg
    match Registry.lookup reg6 path with
    | none => none
    | some r3 =>
      let rA := mark_record_active r3 env.now_wait
      some ⟨Except.ok (), Registry.store reg6 path rA,
        [RemoteOp.uploadOp path, RemoteOp.purchaseOp cid,
         RemoteOp.waitOp resp.purchase_id],
        trace ++ [(Mutation.activated, rA)]⟩
  | Except.error e =>
    let reg6 := g3 reg
    match Registry.lookup reg6 path with
    | none => none
    | some r3 =>
      let rF := update_record_status r3 FileStatus.Failed (some e) env.now_wait
      some ⟨Except.error ("Purchase failed to start: " ++ e),
        Registry.store reg6 path rF,
        [RemoteOp.uploadOp path, RemoteOp.purchaseOp cid,
         RemoteOp.waitOp resp.purchase_id],
        trace ++ [(Mutation.failedMark, rF)]⟩

/-- Step three of process_file (file_processor.rs lines 149 to 180):
record the purchase on success, or mark the record failed with the error
text on exhausted failure. -/
def pf_purchase_step (g2 g3 : Registry → Registry) (reg : Registry)
    (path : FPath) (trace : List (Mutation × FileRecord)) (cid : String)
    (env : ProcessEnv) : Option ProcessResult :=
  match env.purchase_result with
  | Except.ok resp =>
    let reg4 := g2 reg
    match Registry.lookup reg4 path with
    | none => none
    | some r2 =>
      let rP := update_record_purchase r2 resp.purchase_id
        resp.request.content.cid env.now_purchase
      pf_wait_step g3 (Registry.store reg4 path rP) path
        (trace ++ [(Mutation.purchased, rP)]) cid resp env
  | Except.error e =>
    let reg4 := g2 reg
    match Registry.lookup reg4 path with
    | none => none
    | some r2 =>
      let rF := update_record_status r2 FileStatus.Failed (some e) env.now_purchase
      some ⟨Except.error ("Storage request failed: " ++ e),
        Registry.store reg4 path rF,
        [RemoteOp.uploadOp path, RemoteOp.purchaseOp cid],
        trace ++ [(Mutation.failedMark, rF)]⟩

/-- Step two of process_file (file_processor.rs lines 121 to 147):
upload the file; on success record the cid together with the literal
label "endpoint" hard coded at line 145, on exhausted failure mark the
record failed. -/
def pf_upload_step (g1 g2 g3 : Registry → Registry) (reg : Registry)
    (path : FPath) (trace : List (Mutation × FileRecord))
    (env : ProcessEnv) : Option ProcessResult :=
  match env.upload_result with
  | Except.ok cid =>
    let reg2 := g1 reg
    match Registry.lookup reg2 path with
    | none => none
    | some r =>
      let rU := update_record_upload r cid "endpoint" env.now_upload
      pf_purchase_step g2 g3 (Registry.store reg2 path rU) path
        (trace ++ [(Mutation.uploaded, rU)]) cid env
  | Except.error e =>
    let reg2 := g1 reg
    match Registry.lookup reg2 path with
    | none => none
    | some r =>
      let rF := update_record_status r FileStatus.Failed (some e) env.now_upload
      some ⟨Except.error ("Upload failed: " ++ e),
        Registry.store reg2 path rF,
        [RemoteOp.uploadOp path],
        trace ++ [(Mutation.failedMark, rF)]⟩

/-- FileProcessor::process_file (file_processor.rs lines 107 to 205).
Step one looks up or creates the record and short circuits when the
record is Active and renewal is not due. The functions g1, g2, g3 model
registry activity by other tasks interleaved at the three points where
the write lock is released and reacquired; the sequential executions of
the source instantiate them with the identity. -/
def process_file (g1 g2 g3 : Registry → Registry) (reg0 : Registry)
    (path : FPath) (env : ProcessEnv) : Option ProcessResult :=
  match Registry.lookup reg0 path with
  | some r0 =>
    if r0.status = FileStatus.Active ∧
        needs_renewal env.storage_params r0 env.now_check = false then
      some ⟨Except.ok (), reg0, [], []⟩
    else
      pf_upload_step g1 g2 g3 reg0 path [] env
  | none =>
    let r0 := create_new_record path env.now_entry
    pf_upload_step g1 g2 g3 (Registry.store reg0 path r0) path
      [(Mutation.created, r0)] env

/-- The invariant of claim C1: an Active record carries a purchase id,
and a record in flight or active carries the upload cid. -/
def record_invariant (r : FileRecord) : Prop :=
  (r.status = FileStatus.Active → r.purchase_id.isSome = true) ∧
  ((r.status = FileStatus.Uploading ∨ r.status = FileStatus.Creating ∨
    r.status = FileStatus.Active) → r.original_cid.isSome = true)

instance (r : FileRecord) : Decidable (record_invariant r) := by
  unfold record_invariant
  infer_instance

/-- Monitor::handle_file_event, EventKind::Remove branch (monitor.rs
lines 137 to 141): each removed path is logged, the registry is not
touched. -/
def handle_remove_event (reg : Registry) (_paths : List FPath) : Registry :=
  reg

/-- A registry transformation that never drops an entry. The concurrent
drivers of the source only create or update entries, so every
interleaved transformation satisfies this. -/
def preserves_keys (g : Registry → Registry) : Prop :=
  ∀ reg k, (Registry.lookup reg k).isSome = true →
    (Registry.lookup (g reg) k).isSome = true

/-- One directory entry seen by the walker or the watcher. -/
structure FsEntry where
  path : FPath
  is_file : Bool
  size : Nat
  deriving DecidableEq, Repr

/-- FileProcessor::scan_target_folder (file_processor.rs lines 49 to
80): keep regular files, skip sizes below 1048576 bytes and above
1073741824 bytes, strictly. -/
def scan_target_folder (entries : List FsEntry) : List FPath :=
  (entries.filter (fun e =>
    e.is_file && !(decide (e.size < 1048576)) &&
      !(decide (1073741824 < e.size)))).map (fun e => e.path)

/-- The watcher decision of Monitor::handle_file_event (monitor.rs lines
89 to 135) for a create or modify event: proceed only for a regular
file whose size is at least 1048576, at most 1073741824, and unchanged
after the settle delay. -/
def watcher_accepts (is_regular : Bool) (size size_after_settle : Nat) : Bool :=
  is_regular && !(decide (size < 1048576)) &&
    !(decide (1073741824 < size)) && decide (size_after_settle = size)

/-- One iteration of FileProcessor::process_files (file_processor.rs
lines 82 to 105): run process_file sequentially and, on error, ensure
the entry exists and mark it failed with the error text. -/
def process_one (reg : Registry) (p : FPath) (env : ProcessEnv) : Registry :=
  match process_file id id id reg p env with
  | none => reg
  | some res =>
    match res.result with
    | Except.ok _ => res.registry
    | Except.error e =>
      match Registry.lookup res.registry p with
      | some r =>
        Registry.store res.registry p
          (update_record_status r FileStatus.Failed (some e) env.now_handler)
      | none =>
        Registry.store res.registry p
          (update_record_status (create_new_record p env.now_entry)
            FileStatus.Failed (some e) env.now_handler)

/-- FileProcessor::process_files (file_processor.rs lines 82 to 105):
scan the target folder and process each eligible file in order. -/
def process_files (reg : Registry) (entries : List FsEntry)
    (envOf : FPath → ProcessEnv) : Registry :=
  (scan_target_folder entries).foldl (fun acc p => process_one acc p (envOf p)) reg

/-- Monitor::periodic_check (monitor.rs lines 148 to 173): re-scan the
folder and process the scanned files that are absent from the registry
snapshot taken before the loop. -/
def periodic_check (reg : Registry) (entries : List FsEntry)
    (envOf : FPath → ProcessEnv) : Registry :=
  (scan_target_folder entries).foldl (fun acc p =>
    if Registry.lookup reg p = none then
      match process_file id id id acc p (envOf p) with
      | none => acc
      | some res => res.registry
    else acc) reg

/-- Index of the last dot in a name, if any. -/
def last_dot_index : List Char → Option Nat
  | [] => none
  | c :: rest =>
    match last_dot_index rest with
    | some i => some (i + 1)
    | none => if c = '.' then some 0 else none

/-- Rust file_stem and extension of a file name: split at the last dot,
provided the part before it is non empty (a leading dot alone does not
begin an extension). -/
def split_stem_ext (name : FName) : FName × Option FName :=
  match last_dot_index name with
  | none => (name, none)
  | some 0 => (name, none)
  | some (i + 1) => (name.take (i + 1), some (name.drop (i + 2)))

/-- Rust Path::extension restricted to the file name. -/
def extension_of (name : FName) : Option FName := (split_stem_ext name).2

/-- Rust Path::with_extension restricted to the file name: the current
extension is dropped and the new one appended; the empty extension just
drops the current one. -/
def with_extension (name : FName) (ext : FName) : FName :=
  let stem := (split_stem_ext name).1
  if ext = [] then stem else stem ++ '.' :: ext

/-- The record file extension used by the storage manager. -/
def jsonExt : FName := ['j', 's', 'o', 'n']

/-- Apply a function to the last component of a path. -/
def map_last (f : FName → FName) : FPath → FPath
  | [] => []
  | [n] => [f n]
  | n :: m :: rest => n :: map_last f (m :: rest)

/-- Rust Path::extension on a full path: the extension of its last
component. -/
def path_extension : FPath → Option FName
  | [] => none
  | [n] => extension_of n
  | _ :: m :: rest => path_extension (m :: rest)

/-- Rust Path::strip_prefix: remove the leading root components, or fail
when the path does not lie under the root. -/
def strip_root : FPath → FPath → Option FPath
  | [], p => some p
  | _ :: _, [] => none
  | r :: rs, q :: qs => if q = r then strip_root rs qs else none

/-- On-disk content under the output root. For the Flattened layout the
keys are the relative_path fields of the manifest entries (paths are
modelled as component lists, the OS string conversion being assumed
lossless); for the Structured layout the keys are the record file paths
relative to the output root. In both layouts a write replaces the entry
with the same key or appends a new one. -/
abbrev Disk := List (FPath × FileRecord)

/-- StorageManager::save_flattened_record (storage.rs lines 127 to 165):
compute the path relative to the target folder, then replace the
manifest entry with that relative_path or append a new one. -/
def save_flattened_record (disk : Disk) (target file_path : FPath)
    (record : FileRecord) : Option Disk :=
  (strip_root target file_path).map (fun rel => Registry.store disk rel record)

/-- StorageManager::load_flattened_records (storage.rs lines 69 to 88):
insert every manifest entry into the registry, keyed by the target
folder joined with the stored relative path. -/
def load_flattened_records (disk : Disk) (target : FPath) : Registry :=
  disk.foldl (fun acc kv => Registry.store acc (target ++ kv.1) kv.2) []

/-- StorageManager::save_structured_record (storage.rs lines 167 to
186): write the record at the path relative to the target folder with
its extension replaced by json, under the output root. -/
def save_structured_record (disk : Disk) (target file_path : FPath)
    (record : FileRecord) : Option Disk :=
  (strip_root target file_path).map (fun rel =>
    Registry.store disk (map_last (fun n => with_extension n jsonExt) rel) record)

/-- StorageManager::load_structured_records together with
output_path_to_original_path (storage.rs lines 90 to 114 and 188 to
191): walk the output tree, keep files with the json extension, and key
each record by the target folder joined with the relative output path
with its extension dropped. -/
def load_structured_records (disk : Disk) (target : FPath) : Registry :=
  disk.foldl (fun acc kv =>
    if path_extension kv.1 = some jsonExt then
      Registry.store acc
        (target ++ map_last (fun n => with_extension n []) kv.1) kv.2
    else acc) []

/-- A sample watched file path used by concrete evaluations. -/
def sample_path : FPath := [['d'], ['f']]

/-- A sample environment in which every remote step succeeds, matching
the success scenario of the spec (cid cidA, purchase p1, state
started). -/
def env_ok : ProcessEnv :=
  { storage_params := defaultStorageParams
    upload_result := Except.ok "cidA"
    served_endpoint := "http://localhost:8080"
    purchase_result := Except.ok ⟨"p1", ⟨⟨"cidA"⟩⟩⟩
    wait_result := Except.ok ⟨"started", ⟨⟨"cidA"⟩⟩⟩
    now_entry := 0
    now_check := 0
    now_upload := 1
    now_purchase := 2
    now_wait := 3
    now_handler := 4 }

/-- The environment of the payment required scenario: upload succeeds,
purchase creation fails with the distinguished message. -/
def env_insufficient : ProcessEnv :=
  { env_ok with purchase_result := Except.error insufficient_tokens_message }

/-- An Active record whose purchase is fresh (created at time 0), so
renewal is not due at time 0. -/
def rec_active : FileRecord :=
  { file_path := sample_path
    original_cid := some "cidA"
    storage_cid := some "cidA"
    purchase_id := some "p1"
    created_at := 0
    updated_at := 0
    codex_endpoint := some "endpoint"
    status := FileStatus.Active
    error := none }

/-- An always failing operation, as in the retry exhaustion scenario. -/
def op_fail : Nat → Except String String := fun _ => Except.error "network error"

/-- A directory holding one regular file of exactly 1073741824 bytes,
that is 2 to the 30. -/
def entries_boundary : List FsEntry := [⟨sample_path, true, 1073741824⟩]

/-- A client configured with one endpoint, as in the default
configuration of config.rs. -/
def client_one : Client := ⟨["http://localhost:8080"], 0⟩

/-! ## Registry lemmas -/

theorem lookup_store_self (reg : Registry) (p : FPath) (r : FileRecord) :
    Registry.lookup (Registry.store reg p r) p = some r := by
  induction reg with
  | nil => simp [Registry.store, Registry.lookup]
  | cons kv rest ih =>
    obtain ⟨k, r0⟩ := kv
    by_cases h : k = p
    · simp [Registry.store, Registry.lookup, h]
    · simp [Registry.store, Registry.lookup, h, ih]

theorem lookup_store_ne (reg : Registry) (p : FPath) (r : FileRecord)
    (q : FPath) (h : q ≠ p) :
    Registry.lookup (Registry.store reg p r) q = Registry.lookup reg q := by
  induction reg with
  | nil =>
    have hq : (p = q) = False := eq_false (fun hh => h hh.symm)
    simp [Registry.store, Registry.lookup, hq]
  | cons kv rest ih =>
    obtain ⟨k, r0⟩ := kv
    by_cases hk : k = p
    · subst hk
      have hq : (k = q) = False := eq_false (fun hh => h hh.symm)
      simp [Registry.store, Registry.lookup, hq]
    · by_cases hkq : k = q
      · subst hkq
        simp [Registry.store, Registry.lookup, hk]
      · simp [Registry.store, Registry.lookup, hk, hkq, ih]

theorem store_isSome (reg : Registry) (p : FPath) (r : FileRecord) (k : FPath)
    (h : (Registry.lookup reg k).isSome = true) :
    (Registry.lookup (Registry.store reg p r) k).isSome = true := by
  by_cases hk : k = p
  · subst hk
    simp [lookup_store_self]
  · rw [lookup_store_ne reg p r k hk]
    exact h

theorem mem_store (reg : Registry) (p : FPath) (r : FileRecord)
    (kv : FPath × FileRecord) (h : kv ∈ Registry.store reg p r) :
    kv ∈ reg ∨ kv = (p, r) := by
  induction reg with
  | nil =>
    simp [Registry.store] at h
    exact Or.inr h
  | cons hd rest ih =>
    obtain ⟨k, r0⟩ := hd
    by_cases hk : k = p
    · subst hk
      simp [Registry.store] at h
      rcases h with h | h
      · exact Or.inr h
      · exact Or.inl (List.mem_cons_of_mem _ h)
    · simp [Registry.store, hk] at h
      rcases h with h | h
      · exact Or.inl (by rw [h]; exact List.mem_cons_self _ _)
      · rcases ih h with h2 | h2
        · exact Or.inl (List.mem_cons_of_mem _ h2)
        · exact Or.inr h2

theorem mem_store_self (reg : Registry) (p : FPath) (r : FileRecord) :
    (p, r) ∈ Registry.store reg p r := by
  induction reg with
  | nil => simp [Registry.store]
  | cons hd rest ih =>
    obtain ⟨k, r0⟩ := hd
    by_cases hk : k = p
    · subst hk
      simp [Registry.store]
    · simp [Registry.store, hk]
      exact Or.inr ih

theorem store_key_eq_val (reg : Registry) (p : FPath) (r w : FileRecord)
    (hnd : (reg.map Prod.fst).Nodup)
    (h : (p, w) ∈ Registry.store reg p r) : w = r := by
  induction reg with
  | nil =>
    simp [Registry.store] at h
    exact h
  | cons hd rest ih =>
    obtain ⟨k, r0⟩ := hd
    simp only [List.map_cons, List.nodup_cons] at hnd
    by_cases hk : k = p
    · subst hk
      simp [Registry.store] at h
      rcases h with h | h
      · exact h
      · exfalso
        exact hnd.1 (List.mem_map.mpr ⟨(k, w), h, rfl⟩)
    · simp [Registry.store, hk] at h
      rcases h with ⟨h1, _⟩ | h
      · exact absurd h1.symm hk
      · exact ih hnd.2 h

/-! ## Claim C5: renewal policy -/

/-- Claim C5: needs_new_purchase returns true for Failed and Expired,
for Active it returns true exactly when created_at plus the fixed six
day validity window minus now is below the buffer, and it returns false
for New, Uploading and Creating; the one hour renewal check of the file
processor does not depend on the configured storage parameters. -/
theorem claim5_renewal_policy (r : FileRecord) (buffer now : Int) :
    ((r.status = FileStatus.Failed ∨ r.status = FileStatus.Expired) →
      needs_new_purchase r buffer now = true) ∧
    (r.status = FileStatus.Active →
      (needs_new_purchase r buffer now = true ↔
        r.created_at + chronoDays 6 - now < buffer)) ∧
    ((r.status = FileStatus.New ∨ r.status = FileStatus.Uploading ∨
      r.status = FileStatus.Creating) →
      needs_new_purchase r buffer now = false) ∧
    (∀ p1 p2 : StorageParams, needs_renewal p1 r now = needs_renewal p2 r now) := by
  refine ⟨?_, ?_, ?_, fun _ _ => rfl⟩
  · rintro (h | h) <;> simp [needs_new_purchase, h]
  · intro h
    simp [needs_new_purchase, h]
  · rintro (h | h | h) <;> simp [needs_new_purchase, h]

/-- Witness for claim C5 at a concrete Active record: created at time 0,
checked at time 518000 with buffer 3600, the purchase is within the
buffer of the six day window, so a new purchase is needed. -/
theorem claim5_witness : needs_new_purchase rec_active 3600 518000 = true := by
  have h := (claim5_renewal_policy rec_active 3600 518000).2.1 (by rfl)
  exact h.mpr (by decide)

/-! ## Claim C7: error field on success paths -/

/-- Counterexample to claim C7: on a record carrying a failure message,
the success path mutators leave the message in place instead of
clearing it to none. -/
theorem claim7_error_counterexample :
    (update_record_upload
      { rec_active with status := FileStatus.Failed, error := some "boom" }
      "cidA" "endpoint" 1).error = some "boom" ∧
    (update_record_purchase
      { rec_active with status := FileStatus.Failed, error := some "boom" }
      "p1" "cidA" 1).error = some "boom" ∧
    (mark_record_active
      { rec_active with status := FileStatus.Failed, error := some "boom" }
      1).error = some "boom" ∧
    some "boom" ≠ (none : Option String) := by
  refine ⟨rfl, rfl, rfl, by simp⟩

/-- Claim C7 as amended: the three success path mutators
(update_record_upload, update_record_purchase, mark_record_active) leave
the error field unchanged; it is not cleared. -/
theorem claim7_error_amended (r : FileRecord) (cid endpoint purchase_id
    storage_cid : String) (now : Int) :
    (update_record_upload r cid endpoint now).error = r.error ∧
    (update_record_purchase r purchase_id storage_cid now).error = r.error ∧
    (mark_record_active r now).error = r.error :=
  ⟨rfl, rfl, rfl⟩

/-! ## Claim C4: retry with backoff -/

theorem retry_go_attempts_pos (op : Nat → Except E A) (a r : Nat) :
    1 ≤ (retry_go op a r).attempts := by
  cases r with
  | zero => cases h : op a <;> simp [retry_go, h]
  | succ r => cases h : op a <;> simp [retry_go, h]

theorem retry_go_attempts_le (op : Nat → Except E A) (r : Nat) : ∀ a,
    (retry_go op a r).attempts ≤ r + 1 := by
  induction r with
  | zero => intro a; cases h : op a <;> simp [retry_go, h]
  | succ r ih =>
    intro a
    cases h : op a with
    | ok v => simp [retry_go, h]
    | error e =>
      simp only [retry_go, h]
      exact Nat.succ_le_succ (ih (a + 1))

theorem retry_go_sleeps (op : Nat → Except E A) (r : Nat) : ∀ a,
    (retry_go op a r).sleeps =
      (List.range ((retry_go op a r).attempts - 1)).map
        (fun i => 2 ^ (a + i) % 2 ^ 64) := by
  induction r with
  | zero => intro a; cases h : op a <;> simp [retry_go, h]
  | succ r ih =>
    intro a
    cases h : op a with
    | ok v => simp [retry_go, h]
    | error e =>
      simp only [retry_go, h]
      have hpos := retry_go_attempts_pos op (a + 1) r
      obtain ⟨m, hm⟩ : ∃ m, (retry_go op (a + 1) r).attempts = m + 1 :=
        ⟨(retry_go op (a + 1) r).attempts - 1,
          (Nat.succ_pred_eq_of_pos hpos).symm⟩
      rw [ih (a + 1), hm]
      simp only [Nat.add_sub_cancel, List.range_succ_eq_map, List.map_cons,
        List.map_map]
      refine List.cons_eq_cons.mpr ⟨by rw [Nat.add_zero], ?_⟩
      apply List.map_congr_left
      intro i _
      simp only [Function.comp]
      congr 2
      omega

theorem retry_go_ok (op : Nat → Except E A) (r : Nat) : ∀ a k (v : A),
    k ≤ r → op (a + k) = Except.ok v →
    (∀ j, j < k → ∃ e, op (a + j) = Except.error e) →
    (retry_go op a r).result = Except.ok v ∧
      (retry_go op a r).attempts = k + 1 := by
  induction r with
  | zero =>
    intro a k v hk hop _
    have hk0 : k = 0 := Nat.le_zero.mp hk
    subst hk0
    rw [Nat.add_zero] at hop
    simp [retry_go, hop]
  | succ r ih =>
    intro a k v hk hop hfail
    cases k with
    | zero =>
      rw [Nat.add_zero] at hop
      simp [retry_go, hop]
    | succ k' =>
      obtain ⟨e, he⟩ := hfail 0 (Nat.succ_pos k')
      rw [Nat.add_zero] at he
      simp only [retry_go, he]
      have hrec := ih (a + 1) k' v (Nat.le_of_succ_le_succ hk)
        (by rw [show a + 1 + k' = a + (k' + 1) by omega]; exact hop)
        (fun j hj => by
          obtain ⟨e2, he2⟩ := hfail (j + 1) (Nat.succ_lt_succ hj)
          exact ⟨e2, by rw [show a + 1 + j = a + (j + 1) by omega]; exact he2⟩)
      exact ⟨hrec.1, by rw [hrec.2]⟩

theorem retry_go_all_fail (op : Nat → Except E A) (r : Nat) : ∀ a,
    (∀ j, j ≤ r → ∃ e, op (a + j) = Except.error e) →
    ∃ e, op (a + r) = Except.error e ∧
      (retry_go op a r).result = Except.error e ∧
      (retry_go op a r).attempts = r + 1 := by
  induction r with
  | zero =>
    intro a hfail
    obtain ⟨e, he⟩ := hfail 0 (Nat.le_refl 0)
    rw [Nat.add_zero] at he
    exact ⟨e, by rw [Nat.add_zero]; exact he,
      by simp [retry_go, he], by simp [retry_go, he]⟩
  | succ r ih =>
    intro a hfail
    obtain ⟨e0, he0⟩ := hfail 0 (Nat.zero_le _)
    rw [Nat.add_zero] at he0
    obtain ⟨e, he, hres, hatt⟩ := ih (a + 1) (fun j hj => by
      obtain ⟨e2, he2⟩ := hfail (j + 1) (Nat.succ_le_succ hj)
      exact ⟨e2, by rw [show a + 1 + j = a + (j + 1) by omega]; exact he2⟩)
    refine ⟨e, by rw [show a + (r + 1) = a + 1 + r by omega]; exact he, ?_, ?_⟩
    · simp [retry_go, he0, hres]
    · simp [retry_go, he0, hatt]

/-- Counterexample to claim C4 as stated: the sleep after the 64th
failed attempt is the u64 value 2.pow(64), which is not 2 to the 64 (it
wraps to zero), so the sleep durations are not 2 to the k for every k
and every retry budget. -/
theorem claim4_retry_counterexample :
    (retry_with_backoff op_fail 65).sleeps.get? 64 = some 0 ∧
    some (0 : Nat) ≠ some (2 ^ 64 : Nat) := by
  constructor
  · decide
  · decide

/-- Claim C4 as amended: retry_with_backoff makes at most n plus one
invocations; if the k-th invocation is the first success its value is
returned after exactly k plus one invocations; if all n plus one
invocations fail the last error is returned after exactly n plus one
invocations; and the sleep after the k-th failed attempt is the u64
value 2.pow(k), that is 2 to the k reduced modulo 2 to the 64 (equal to
2 to the k whenever k is below 64, hence for every realistic budget,
including the default of 3), with no sleep after the last attempt. -/
theorem claim4_retry_amended (op : Nat → Except E A) (n : Nat) :
    (retry_with_backoff op n).attempts ≤ n + 1 ∧
    (∀ k v, k ≤ n → op k = Except.ok v →
      (∀ j, j < k → ∃ e, op j = Except.error e) →
      (retry_with_backoff op n).result = Except.ok v ∧
        (retry_with_backoff op n).attempts = k + 1) ∧
    ((∀ j, j ≤ n → ∃ e, op j = Except.error e) →
      ∃ e, op n = Except.error e ∧
        (retry_with_backoff op n).result = Except.error e ∧
        (retry_with_backoff op n).attempts = n + 1) ∧
    (retry_with_backoff op n).sleeps =
      (List.range ((retry_with_backoff op n).attempts - 1)).map
        (fun k => 2 ^ k % 2 ^ 64) := by
  refine ⟨retry_go_attempts_le op n 0, ?_, ?_, ?_⟩
  · intro k v hk hop hfail
    exact retry_go_ok op n 0 k v hk (by rw [Nat.zero_add]; exact hop)
      (fun j hj => by rw [Nat.zero_add]; exact hfail j hj)
  · intro hfail
    obtain ⟨e, he, h1, h2⟩ := retry_go_all_fail op n 0
      (fun j hj => by rw [Nat.zero_add]; exact hfail j hj)
    rw [Nat.zero_add] at he
    exact ⟨e, he, h1, h2⟩
  · have h := retry_go_sleeps op n 0
    simpa using h

/-- Witness for claim C4: with retry budget 3 and an always failing
upload, the operation is attempted exactly 4 times, the last error is
returned, and the sleeps are 1, 2 and 4 seconds. -/
theorem claim4_retry_witness :
    (retry_with_backoff op_fail 3).attempts = 4 ∧
    (retry_with_backoff op_fail 3).result = Except.error "network error" ∧
    (retry_with_backoff op_fail 3).sleeps = [1, 2, 4] := by
  obtain ⟨e, he, hres, hatt⟩ := (claim4_retry_amended op_fail 3).2.2.1
    (fun j _ => ⟨"network error", rfl⟩)
  have hsl := (claim4_retry_amended op_fail 3).2.2.2
  have he2 : e = "network error" := by
    simpa [op_fail] using he.symm
  subst he2
  refine ⟨hatt, hres, ?_⟩
  rw [hsl, hatt]
  decide

/-! ## Claim C6: Active with renewal not due is a no-op -/

/-- Claim C6: when the record for the path is Active and renewal is not
due, process_file returns Ok, performs no remote call, makes no mutation
(its trace is empty), leaves the registry (hence the record, including
updated_at) unchanged, and a second immediate invocation returns the
same result. -/
theorem claim6_active_noop (reg : Registry) (path : FPath) (env : ProcessEnv)
    (r : FileRecord) (h1 : Registry.lookup reg path = some r)
    (h2 : r.status = FileStatus.Active)
    (h3 : needs_renewal env.storage_params r env.now_check = false) :
    process_file id id id reg path env = some ⟨Except.ok (), reg, [], []⟩ ∧
    ∀ res, process_file id id id reg path env = some res →
      res.registry = reg ∧ res.calls = [] ∧ res.trace = [] ∧
      process_file id id id res.registry path env =
        process_file id id id reg path env := by
  have hmain : process_file id id id reg path env =
      some ⟨Except.ok (), reg, [], []⟩ := by
    simp only [process_file, h1]
    rw [if_pos ⟨h2, h3⟩]
  refine ⟨hmain, ?_⟩
  intro res hres
  rw [hmain] at hres
  cases hres
  exact ⟨rfl, rfl, rfl, rfl⟩

/-- Witness for claim C6 at a concrete registry holding a fresh Active
record: the invocation is a pure no-op. -/
theorem claim6_witness :
    process_file id id id [(sample_path, rec_active)] sample_path env_ok =
      some ⟨Except.ok (), [(sample_path, rec_active)], [], []⟩ :=
  (claim6_active_noop [(sample_path, rec_active)] sample_path env_ok
    rec_active (by decide) (by decide) (by decide)).1

/-! ## Claim C8: payment required on purchase creation -/

/-- Counterexample to claim C8 as stated: the failure transition also
restamps updated_at, so not every field other than status and error is
unchanged. Concretely, from a record with updated_at 0, the payment
required run leaves updated_at 2 (the clock value at the failure
mutation). -/
theorem claim8_insufficient_funds_counterexample :
    (process_file id id id [(sample_path, create_new_record sample_path 0)]
        sample_path env_insufficient).map
      (fun res => (Registry.lookup res.registry sample_path).map
        (fun r => r.updated_at)) = some (some 2) ∧
    (create_new_record sample_path 0).updated_at = 0 ∧ (2 : Int) ≠ 0 := by
  exact ⟨by decide, rfl, by decide⟩

/-- Claim C8 as amended: when upload succeeded and purchase creation
fails with the distinguished payment required message, process_file
marks the record Failed with that message and restamps updated_at; every
other field is untouched by the failure transition, so original_cid (and
the endpoint label) remain as set by the upload step, and storage_cid,
purchase_id, created_at and file_path keep their prior values. -/
theorem claim8_insufficient_funds_amended (reg : Registry) (path : FPath)
    (env : ProcessEnv) (r0 : FileRecord) (cid : String)
    (h1 : Registry.lookup reg path = some r0)
    (hskip : ¬(r0.status = FileStatus.Active ∧
      needs_renewal env.storage_params r0 env.now_check = false))
    (hup : env.upload_result = Except.ok cid)
    (hpur : env.purchase_result = Except.error insufficient_tokens_message) :
    ∃ res, process_file id id id reg path env = some res ∧
      res.result = Except.error
        ("Storage request failed: " ++ insufficient_tokens_message) ∧
      ∃ r2, Registry.lookup res.registry path = some r2 ∧
        r2.status = FileStatus.Failed ∧
        r2.error = some insufficient_tokens_message ∧
        r2.original_cid = some cid ∧
        r2.codex_endpoint = some "endpoint" ∧
        r2.updated_at = env.now_purchase ∧
        r2.storage_cid = r0.storage_cid ∧
        r2.purchase_id = r0.purchase_id ∧
        r2.created_at = r0.created_at ∧
        r2.file_path = r0.file_path := by
  simp only [process_file, h1]
  rw [if_neg hskip]
  simp only [pf_upload_step, hup, id_eq, h1]
  simp only [pf_purchase_step, hpur, id_eq, lookup_store_self]
  refine ⟨_, rfl, rfl, ?_⟩
  exact ⟨_, lookup_store_self _ _ _,
    rfl, rfl, rfl, rfl, rfl, rfl, rfl, rfl, rfl⟩

/-- Witness for claim C8 at a concrete run from a fresh record. -/
theorem claim8_witness :
    ∃ res, process_file id id id
        [(sample_path, create_new_record sample_path 0)] sample_path
        env_insufficient = some res ∧
      res.result = Except.error
        ("Storage request failed: " ++ insufficient_tokens_message) ∧
      ∃ r2, Registry.lookup res.registry sample_path = some r2 ∧
        r2.status = FileStatus.Failed ∧
        r2.error = some insufficient_tokens_message ∧
        r2.original_cid = some "cidA" ∧
        r2.codex_endpoint = some "endpoint" ∧
        r2.updated_at = env_insufficient.now_purchase ∧
        r2.storage_cid = (create_new_record sample_path 0).storage_cid ∧
        r2.purchase_id = (create_new_record sample_path 0).purchase_id ∧
        r2.created_at = (create_new_record sample_path 0).created_at ∧
        r2.file_path = (create_new_record sample_path 0).file_path :=
  claim8_insufficient_funds_amended
    [(sample_path, create_new_record sample_path 0)] sample_path
    env_insufficient (create_new_record sample_path 0) "cidA"
    (by decide) (by decide) rfl rfl

/-! ## Claim C1: record invariant after every mutator call -/

theorem record_invariant_new (p : FPath) (t : Int) :
    record_invariant (create_new_record p t) := by
  refine ⟨fun h => ?_, fun h => ?_⟩
  · simp [create_new_record] at h
  · rcases h with h | h | h <;> simp [create_new_record] at h

theorem record_invariant_failed (x : FileRecord) (e : Option String) (t : Int) :
    record_invariant (update_record_status x FileStatus.Failed e t) := by
  refine ⟨fun h => ?_, fun h => ?_⟩
  · simp [update_record_status] at h
  · rcases h with h | h | h <;> simp [update_record_status] at h

theorem record_invariant_uploaded (x : FileRecord) (cid ep : String) (t : Int) :
    record_invariant (update_record_upload x cid ep t) := by
  refine ⟨fun h => ?_, fun _ => ?_⟩
  · simp [update_record_upload] at h
  · simp [update_record_upload]

theorem record_invariant_purchased (x : FileRecord) (pid scid : String)
    (t : Int) (ho : x.original_cid.isSome = true) :
    record_invariant (update_record_purchase x pid scid t) := by
  refine ⟨fun h => ?_, fun _ => ?_⟩
  · simp [update_record_purchase] at h
  · simpa [update_record_purchase] using ho

theorem record_invariant_active (x : FileRecord) (t : Int)
    (hp : x.purchase_id.isSome = true) (ho : x.original_cid.isSome = true) :
    record_invariant (mark_record_active x t) :=
  ⟨fun _ => by simpa [mark_record_active] using hp,
   fun _ => by simpa [mark_record_active] using ho⟩

theorem pf_wait_id_props (reg : Registry) (path : FPath)
    (trace : List (Mutation × FileRecord)) (cid : String)
    (resp : PurchaseResponse) (env : ProcessEnv)
    (htr : ∀ mr ∈ trace, record_invariant mr.2)
    (hcur : ∃ r, Registry.lookup reg path = some r ∧
      r.purchase_id.isSome = true ∧ r.original_cid.isSome = true) :
    ∀ res, pf_wait_step id reg path trace cid resp env = some res →
      (∀ mr ∈ res.trace, record_invariant mr.2) ∧
      ((∀ kv ∈ reg, record_invariant kv.2) →
        ∀ kv ∈ res.registry, record_invariant kv.2) := by
  intro res hres
  obtain ⟨r, hr, hp, ho⟩ := hcur
  cases hw : env.wait_result with
  | ok st =>
    simp only [pf_wait_step, hw, id_eq, hr] at hres
    cases hres
    have hA := record_invariant_active r env.now_wait hp ho
    constructor
    · intro mr hmr
      rcases List.mem_append.mp hmr with h | h
      · exact htr mr h
      · simp only [List.mem_singleton] at h
        rw [h]
        exact hA
    · intro hreg kv hkv
      rcases mem_store _ _ _ kv hkv with h | h
      · exact hreg kv h
      · rw [h]
        exact hA
  | error e =>
    simp only [pf_wait_step, hw, id_eq, hr] at hres
    cases hres
    have hF := record_invariant_failed r (some e) env.now_wait
    constructor
    · intro mr hmr
      rcases List.mem_append.mp hmr with h | h
      · exact htr mr h
      · simp only [List.mem_singleton] at h
        rw [h]
        exact hF
    · intro hreg kv hkv
      rcases mem_store _ _ _ kv hkv with h | h
      · exact hreg kv h
      · rw [h]
        exact hF

theorem pf_purchase_id_props (reg : Registry) (path : FPath)
    (trace : List (Mutation × FileRecord)) (cid : String) (env : ProcessEnv)
    (htr : ∀ mr ∈ trace, record_invariant mr.2)
    (hcur : ∃ r, Registry.lookup reg path = some r ∧
      r.original_cid.isSome = true) :
    ∀ res, pf_purchase_step id id reg path trace cid env = some res →
      (∀ mr ∈ res.trace, record_invariant mr.2) ∧
      ((∀ kv ∈ reg, record_invariant kv.2) →
        ∀ kv ∈ res.registry, record_invariant kv.2) := by
  intro res hres
  obtain ⟨r, hr, ho⟩ := hcur
  cases hp : env.purchase_result with
  | error e =>
    simp only [pf_purchase_step, hp, id_eq, hr] at hres
    cases hres
    have hF := record_invariant_failed r (some e) env.now_purchase
    constructor
    · intro mr hmr
      rcases List.mem_append.mp hmr with h | h
      · exact htr mr h
      · simp only [List.mem_singleton] at h
        rw [h]
        exact hF
    · intro hreg kv hkv
      rcases mem_store _ _ _ kv hkv with h | h
      · exact hreg kv h
      · rw [h]
        exact hF
  | ok resp =>
    simp only [pf_purchase_step, hp, id_eq, hr] at hres
    have hrP := record_invariant_purchased r resp.purchase_id
      resp.request.content.cid env.now_purchase ho
    have hnext := pf_wait_id_props
      (Registry.store reg path (update_record_purchase r resp.purchase_id
        resp.request.content.cid env.now_purchase)) path
      (trace ++ [(Mutation.purchased, update_record_purchase r
        resp.purchase_id resp.request.content.cid env.now_purchase)])
      cid resp env
      (by
        intro mr hmr
        rcases List.mem_append.mp hmr with h | h
        · exact htr mr h
        · simp only [List.mem_singleton] at h
          rw [h]
          exact hrP)
      ⟨update_record_purchase r resp.purchase_id resp.request.content.cid
        env.now_purchase, lookup_store_self _ _ _,
        by simp [update_record_purchase],
        by simpa [update_record_purchase] using ho⟩
      res hres
    refine ⟨hnext.1, ?_⟩
    intro hreg
    exact hnext.2 (by
      intro kv hkv
      rcases mem_store _ _ _ kv hkv with h | h
      · exact hreg kv h
      · rw [h]
        exact hrP)

theorem pf_upload_id_props (reg : Registry) (path : FPath)
    (trace : List (Mutation × FileRecord)) (env : ProcessEnv)
    (htr : ∀ mr ∈ trace, record_invariant mr.2) :
    ∀ res, pf_upload_step id id id reg path trace env = some res →
      (∀ mr ∈ res.trace, record_invariant mr.2) ∧
      ((∀ kv ∈ reg, record_invariant kv.2) →
        ∀ kv ∈ res.registry, record_invariant kv.2) := by
  intro res hres
  cases hu : env.upload_result with
  | error e =>
    simp only [pf_upload_step, hu, id_eq] at hres
    cases hl : Registry.lookup reg path with
    | none =>
      rw [hl] at hres
      exact Option.noConfusion hres
    | some r =>
      rw [hl] at hres
      cases hres
      have hF := record_invariant_failed r (some e) env.now_upload
      constructor
      · intro mr hmr
        rcases List.mem_append.mp hmr with h | h
        · exact htr mr h
        · simp only [List.mem_singleton] at h
          rw [h]
          exact hF
      · intro hreg kv hkv
        rcases mem_store _ _ _ kv hkv with h | h
        · exact hreg kv h
        · rw [h]
          exact hF
  | ok cid =>
    simp only [pf_upload_step, hu, id_eq] at hres
    cases hl : Registry.lookup reg path with
    | none =>
      rw [hl] at hres
      exact Option.noConfusion hres
    | some r =>
      rw [hl] at hres
      have hrU := record_invariant_uploaded r cid "endpoint" env.now_upload
      have hnext := pf_purchase_id_props
        (Registry.store reg path (update_record_upload r cid "endpoint"
          env.now_upload)) path
        (trace ++ [(Mutation.uploaded, update_record_upload r cid "endpoint"
          env.now_upload)]) cid env
        (by
          intro mr hmr
          rcases List.mem_append.mp hmr with h | h
          · exact htr mr h
          · simp only [List.mem_singleton] at h
            rw [h]
            exact hrU)
        ⟨update_record_upload r cid "endpoint" env.now_upload,
          lookup_store_self _ _ _, by simp [update_record_upload]⟩
        res hres
      refine ⟨hnext.1, ?_⟩
      intro hreg
      exact hnext.2 (by
        intro kv hkv
        rcases mem_store _ _ _ kv hkv with h | h
        · exact hreg kv h
        · rw [h]
          exact hrU)

/-- Claim C1: along any sequential process_file execution, the record
value produced by every mutator call (create_new_record,
update_record_status, update_record_upload, update_record_purchase,
mark_record_active, in the orchestrator order) satisfies the invariant:
Active implies purchase_id set, and Uploading, Creating or Active
implies original_cid set. Consequently a registry whose records all
satisfy the invariant still does after the call. -/
theorem claim1_invariant_after_mutators (reg : Registry) (path : FPath)
    (env : ProcessEnv) :
    ∀ res, process_file id id id reg path env = some res →
      (∀ mr ∈ res.trace, record_invariant mr.2) ∧
      ((∀ kv ∈ reg, record_invariant kv.2) →
        ∀ kv ∈ res.registry, record_invariant kv.2) := by
  intro res hres
  cases hl : Registry.lookup reg path with
  | some r0 =>
    simp only [process_file, hl] at hres
    by_cases hc : r0.status = FileStatus.Active ∧
        needs_renewal env.storage_params r0 env.now_check = false
    · rw [if_pos hc] at hres
      cases hres
      exact ⟨fun mr hmr => absurd hmr (List.not_mem_nil mr),
        fun hreg kv hkv => hreg kv hkv⟩
    · rw [if_neg hc] at hres
      exact pf_upload_id_props reg path [] env
        (fun mr hmr => absurd hmr (List.not_mem_nil mr)) res hres
  | none =>
    simp only [process_file, hl] at hres
    have h0 := record_invariant_new path env.now_entry
    have hnext := pf_upload_id_props
      (Registry.store reg path (create_new_record path env.now_entry)) path
      [(Mutation.created, create_new_record path env.now_entry)] env
      (by
        intro mr hmr
        simp only [List.mem_singleton] at hmr
        rw [hmr]
        exact h0)
      res hres
    refine ⟨hnext.1, ?_⟩
    intro hreg
    exact hnext.2 (by
      intro kv hkv
      rcases mem_store _ _ _ kv hkv with h | h
      · exact hreg kv h
      · rw [h]
        exact h0)

/-- Witness for claim C1 at a concrete successful run starting from the
empty registry. -/
theorem claim1_witness :
    (∀ mr ∈ ((process_file id id id [] sample_path env_ok).getD
        ⟨Except.ok (), [], [], []⟩).trace, record_invariant mr.2) ∧
    (∀ kv ∈ ((process_file id id id [] sample_path env_ok).getD
        ⟨Except.ok (), [], [], []⟩).registry, record_invariant kv.2) := by
  have h := claim1_invariant_after_mutators [] sample_path env_ok
    ((process_file id id id [] sample_path env_ok).getD
      ⟨Except.ok (), [], [], []⟩) (by rfl)
  exact ⟨h.1, h.2 (fun kv hkv => absurd hkv (List.not_mem_nil kv))⟩

/-! ## Claim C9: entries are never removed, the unwraps never panic -/

theorem pf_wait_keys (g3 : Registry → Registry) (h3 : preserves_keys g3)
    (reg : Registry) (path : FPath) (trace : List (Mutation × FileRecord))
    (cid : String) (resp : PurchaseResponse) (env : ProcessEnv)
    (hs : (Registry.lookup reg path).isSome = true) :
    ∃ res, pf_wait_step g3 reg path trace cid resp env = some res ∧
      ∀ k, (Registry.lookup reg k).isSome = true →
        (Registry.lookup res.registry k).isSome = true := by
  obtain ⟨r3, hr3⟩ := Option.isSome_iff_exists.mp (h3 reg path hs)
  cases hw : env.wait_result with
  | ok st =>
    simp only [pf_wait_step, hw, hr3]
    exact ⟨_, rfl, fun k hk => store_isSome _ _ _ _ (h3 reg k hk)⟩
  | error e =>
    simp only [pf_wait_step, hw, hr3]
    exact ⟨_, rfl, fun k hk => store_isSome _ _ _ _ (h3 reg k hk)⟩

theorem pf_purchase_keys (g2 g3 : Registry → Registry)
    (h2 : preserves_keys g2) (h3 : preserves_keys g3)
    (reg : Registry) (path : FPath) (trace : List (Mutation × FileRecord))
    (cid : String) (env : ProcessEnv)
    (hs : (Registry.lookup reg path).isSome = true) :
    ∃ res, pf_purchase_step g2 g3 reg path trace cid env = some res ∧
      ∀ k, (Registry.lookup reg k).isSome = true →
        (Registry.lookup res.registry k).isSome = true := by
  obtain ⟨r2, hr2⟩ := Option.isSome_iff_exists.mp (h2 reg path hs)
  cases hp : env.purchase_result with
  | error e =>
    simp only [pf_purchase_step, hp, hr2]
    exact ⟨_, rfl, fun k hk => store_isSome _ _ _ _ (h2 reg k hk)⟩
  | ok resp =>
    simp only [pf_purchase_step, hp, hr2]
    obtain ⟨res, hres, hkeys⟩ := pf_wait_keys g3 h3
      (Registry.store (g2 reg) path (update_record_purchase r2
        resp.purchase_id resp.request.content.cid env.now_purchase)) path
      (trace ++ [(Mutation.purchased, update_record_purchase r2
        resp.purchase_id resp.request.content.cid env.now_purchase)])
      cid resp env (by rw [lookup_store_self]; rfl)
    exact ⟨res, hres, fun k hk => hkeys k (store_isSome _ _ _ _ (h2 reg k hk))⟩

theorem pf_upload_keys (g1 g2 g3 : Registry → Registry)
    (h1 : preserves_keys g1) (h2 : preserves_keys g2) (h3 : preserves_keys g3)
    (reg : Registry) (path : FPath) (trace : List (Mutation × FileRecord))
    (env : ProcessEnv) (hs : (Registry.lookup reg path).isSome = true) :
    ∃ res, pf_upload_step g1 g2 g3 reg path trace env = some res ∧
      ∀ k, (Registry.lookup reg k).isSome = true →
        (Registry.lookup res.registry k).isSome = true := by
  obtain ⟨r, hr⟩ := Option.isSome_iff_exists.mp (h1 reg path hs)
  cases hu : env.upload_result with
  | error e =>
    simp only [pf_upload_step, hu, hr]
    exact ⟨_, rfl, fun k hk => store_isSome _ _ _ _ (h1 reg k hk)⟩
  | ok cid =>
    simp only [pf_upload_step, hu, hr]
    obtain ⟨res, hres, hkeys⟩ := pf_purchase_keys g2 g3 h2 h3
      (Registry.store (g1 reg) path (update_record_upload r cid "endpoint"
        env.now_upload)) path
      (trace ++ [(Mutation.uploaded, update_record_upload r cid "endpoint"
        env.now_upload)]) cid env (by rw [lookup_store_self]; rfl)
    exact ⟨res, hres, fun k hk => hkeys k (store_isSome _ _ _ _ (h1 reg k hk))⟩

/-- Claim C9: the core never removes a registry entry. The remove event
handler leaves the registry untouched, and process_file, run against any
interleaved registry activity that itself never drops entries, never
hits the panicking unwrap (the result is always some) and never loses a
key: every path present before the call is still present after it. -/
theorem claim9_no_removal (g1 g2 g3 : Registry → Registry)
    (h1 : preserves_keys g1) (h2 : preserves_keys g2) (h3 : preserves_keys g3)
    (reg : Registry) (path : FPath) (env : ProcessEnv) (paths : List FPath) :
    handle_remove_event reg paths = reg ∧
    ∃ res, process_file g1 g2 g3 reg path env = some res ∧
      ∀ k, (Registry.lookup reg k).isSome = true →
        (Registry.lookup res.registry k).isSome = true := by
  refine ⟨rfl, ?_⟩
  cases hl : Registry.lookup reg path with
  | some r0 =>
    simp only [process_file, hl]
    by_cases hc : r0.status = FileStatus.Active ∧
        needs_renewal env.storage_params r0 env.now_check = false
    · rw [if_pos hc]
      exact ⟨_, rfl, fun k hk => hk⟩
    · rw [if_neg hc]
      exact pf_upload_keys g1 g2 g3 h1 h2 h3 reg path [] env (by rw [hl]; rfl)
  | none =>
    simp only [process_file, hl]
    obtain ⟨res, hres, hkeys⟩ := pf_upload_keys g1 g2 g3 h1 h2 h3
      (Registry.store reg path (create_new_record path env.now_entry)) path
      [(Mutation.created, create_new_record path env.now_entry)] env
      (by rw [lookup_store_self]; rfl)
    exact ⟨res, hres, fun k hk => hkeys k (store_isSome _ _ _ _ hk)⟩

/-- Witness for claim C9 with identity interference on the empty
registry. -/
theorem claim9_witness :
    handle_remove_event [] [sample_path] = [] ∧
    ∃ res, process_file id id id [] sample_path env_ok = some res ∧
      ∀ k, (Registry.lookup [] k).isSome = true →
        (Registry.lookup res.registry k).isSome = true :=
  claim9_no_removal id id id (fun _ _ hk => hk) (fun _ _ hk => hk)
    (fun _ _ hk => hk) [] sample_path env_ok [sample_path]

/-! ## Claim C10: the endpoint label recorded after upload -/

theorem pf_wait_trace_ext (g3 : Registry → Registry) (reg : Registry)
    (path : FPath) (trace : List (Mutation × FileRecord)) (cid : String)
    (resp : PurchaseResponse) (env : ProcessEnv) (res : ProcessResult)
    (h : pf_wait_step g3 reg path trace cid resp env = some res) :
    ∃ sfx, res.trace = trace ++ sfx ∧
      ∀ mr ∈ sfx, mr.1 = Mutation.activated ∨ mr.1 = Mutation.failedMark := by
  cases hw : env.wait_result with
  | ok st =>
    simp only [pf_wait_step, hw] at h
    cases hr : Registry.lookup (g3 reg) path with
    | none =>
      rw [hr] at h
      exact Option.noConfusion h
    | some r3 =>
      rw [hr] at h
      cases h
      refine ⟨[(Mutation.activated, mark_record_active r3 env.now_wait)],
        rfl, ?_⟩
      intro mr hmr
      simp only [List.mem_singleton] at hmr
      rw [hmr]
      exact Or.inl rfl
  | error e =>
    simp only [pf_wait_step, hw] at h
    cases hr : Registry.lookup (g3 reg) path with
    | none =>
      rw [hr] at h
      exact Option.noConfusion h
    | some r3 =>
      rw [hr] at h
      cases h
      refine ⟨[(Mutation.failedMark, update_record_status r3
        FileStatus.Failed (some e) env.now_wait)], rfl, ?_⟩
      intro mr hmr
      simp only [List.mem_singleton] at hmr
      rw [hmr]
      exact Or.inr rfl

theorem pf_purchase_trace_ext (g2 g3 : Registry → Registry) (reg : Registry)
    (path : FPath) (trace : List (Mutation × FileRecord)) (cid : String)
    (env : ProcessEnv) (res : ProcessResult)
    (h : pf_purchase_step g2 g3 reg path trace cid env = some res) :
    ∃ sfx, res.trace = trace ++ sfx ∧
      ∀ mr ∈ sfx, mr.1 ≠ Mutation.uploaded ∧ mr.1 ≠ Mutation.created := by
  cases hp : env.purchase_result with
  | error e =>
    simp only [pf_purchase_step, hp] at h
    cases hr : Registry.lookup (g2 reg) path with
    | none =>
      rw [hr] at h
      exact Option.noConfusion h
    | some r2 =>
      rw [hr] at h
      cases h
      refine ⟨[(Mutation.failedMark, update_record_status r2
        FileStatus.Failed (some e) env.now_purchase)], rfl, ?_⟩
      intro mr hmr
      simp only [List.mem_singleton] at hmr
      rw [hmr]
      exact ⟨by simp, by simp⟩
  | ok resp =>
    simp only [pf_purchase_step, hp] at h
    cases hr : Registry.lookup (g2 reg) path with
    | none =>
      rw [hr] at h
      exact Option.noConfusion h
    | some r2 =>
      rw [hr] at h
      obtain ⟨sfx, hsfx, htags⟩ := pf_wait_trace_ext g3 _ path _ cid resp env res h
      refine ⟨(Mutation.purchased, update_record_purchase r2 resp.purchase_id
        resp.request.content.cid env.now_purchase) :: sfx, ?_, ?_⟩
      · rw [hsfx, List.append_assoc]
        rfl
      · intro mr hmr
        rcases List.mem_cons.mp hmr with hm | hm
        · rw [hm]
          exact ⟨by simp, by simp⟩
        · rcases htags mr hm with ht | ht <;> rw [ht] <;>
            exact ⟨by simp, by simp⟩

theorem pf_upload_entry_shape (g1 g2 g3 : Registry → Registry)
    (reg : Registry) (path : FPath) (trace : List (Mutation × FileRecord))
    (env : ProcessEnv) (res : ProcessResult)
    (h : pf_upload_step g1 g2 g3 reg path trace env = some res)
    (htr : ∀ mr ∈ trace, mr.1 ≠ Mutation.uploaded) :
    ∀ r1, (Mutation.uploaded, r1) ∈ res.trace →
      ∃ cid, env.upload_result = Except.ok cid ∧
        r1.status = FileStatus.Uploading ∧ r1.original_cid = some cid ∧
        r1.codex_endpoint = some "endpoint" ∧
        r1.updated_at = env.now_upload := by
  intro r1 hmem
  cases hu : env.upload_result with
  | error e =>
    simp only [pf_upload_step, hu] at h
    cases hr : Registry.lookup (g1 reg) path with
    | none =>
      rw [hr] at h
      exact Option.noConfusion h
    | some r =>
      rw [hr] at h
      cases h
      rcases List.mem_append.mp hmem with hm | hm
      · exact absurd rfl (htr _ hm)
      · simp only [List.mem_singleton, Prod.mk.injEq] at hm
        exact absurd hm.1 (by simp)
  | ok cid =>
    simp only [pf_upload_step, hu] at h
    cases hr : Registry.lookup (g1 reg) path with
    | none =>
      rw [hr] at h
      exact Option.noConfusion h
    | some r =>
      rw [hr] at h
      obtain ⟨sfx, hsfx, htags⟩ := pf_purchase_trace_ext g2 g3 _ path _ cid env res h
      rw [hsfx] at hmem
      rcases List.mem_append.mp hmem with hm | hm
      · rcases List.mem_append.mp hm with hm2 | hm2
        · exact absurd rfl (htr _ hm2)
        · simp only [List.mem_singleton, Prod.mk.injEq] at hm2
          refine ⟨cid, rfl, ?_⟩
          rw [hm2.2]
          exact ⟨rfl, rfl, rfl, rfl⟩
      · exact absurd rfl (htags _ hm).1

theorem pf_upload_entry_exists (g1 g2 g3 : Registry → Registry)
    (reg : Registry) (path : FPath) (trace : List (Mutation × FileRecord))
    (env : ProcessEnv) (res : ProcessResult) (cid : String)
    (h : pf_upload_step g1 g2 g3 reg path trace env = some res)
    (hup : env.upload_result = Except.ok cid) :
    ∃ r1, (Mutation.uploaded, r1) ∈ res.trace := by
  simp only [pf_upload_step, hup] at h
  cases hr : Registry.lookup (g1 reg) path with
  | none =>
    rw [hr] at h
    exact Option.noConfusion h
  | some r =>
    rw [hr] at h
    obtain ⟨sfx, hsfx, _⟩ := pf_purchase_trace_ext g2 g3 _ path _ cid env res h
    refine ⟨update_record_upload r cid "endpoint" env.now_upload, ?_⟩
    rw [hsfx]
    exact List.mem_append.mpr (Or.inl (List.mem_append.mpr
      (Or.inr (List.mem_singleton.mpr rfl))))

/-- Counterexample to claim C10 as stated: with one configured endpoint,
the client round robin serves the upload from
http://localhost:8080, yet the record written after the successful
upload step carries the constant label "endpoint", not the label of the
endpoint that serviced the upload. -/
theorem claim10_endpoint_counterexample :
    Client.get_endpoint client_one =
      (some "http://localhost:8080", ⟨["http://localhost:8080"], 1⟩) ∧
    env_ok.served_endpoint = "http://localhost:8080" ∧
    (process_file id id id [] sample_path env_ok).map
      (fun res => res.trace.map (fun mr => (mr.1, mr.2.codex_endpoint))) =
      some [(Mutation.created, none), (Mutation.uploaded, some "endpoint"),
        (Mutation.purchased, some "endpoint"),
        (Mutation.activated, some "endpoint")] ∧
    some "endpoint" ≠ some env_ok.served_endpoint := by
  exact ⟨by decide, rfl, by decide, by decide⟩

/-- Claim C10 as amended: after a successful upload step the record
transitions to Uploading with original_cid set to the returned content
id and codex_endpoint set to the literal placeholder string "endpoint"
(file_processor.rs line 145), not to the label of the endpoint that
serviced the upload; moreover whenever the pipeline ran (some remote
call was made) and the upload succeeded, such an Uploading trace entry
exists. -/
theorem claim10_endpoint_amended (reg : Registry) (path : FPath)
    (env : ProcessEnv) (res : ProcessResult)
    (hres : process_file id id id reg path env = some res) :
    (∀ r1, (Mutation.uploaded, r1) ∈ res.trace →
      ∃ cid, env.upload_result = Except.ok cid ∧
        r1.status = FileStatus.Uploading ∧ r1.original_cid = some cid ∧
        r1.codex_endpoint = some "endpoint" ∧
        r1.updated_at = env.now_upload) ∧
    (∀ cid, env.upload_result = Except.ok cid → res.calls ≠ [] →
      ∃ r1, (Mutation.uploaded, r1) ∈ res.trace) := by
  constructor
  · intro r1 hmem
    cases hl : Registry.lookup reg path with
    | some r0 =>
      simp only [process_file, hl] at hres
      by_cases hc : r0.status = FileStatus.Active ∧
          needs_renewal env.storage_params r0 env.now_check = false
      · rw [if_pos hc] at hres
        cases hres
        exact absurd hmem (List.not_mem_nil _)
      · rw [if_neg hc] at hres
        exact pf_upload_entry_shape id id id reg path [] env res hres
          (fun mr hmr => absurd hmr (List.not_mem_nil mr)) r1 hmem
    | none =>
      simp only [process_file, hl] at hres
      refine pf_upload_entry_shape id id id _ path _ env res hres ?_ r1 hmem
      intro mr hmr
      simp only [List.mem_singleton] at hmr
      rw [hmr]
      simp
  · intro cid hup hcalls
    cases hl : Registry.lookup reg path with
    | some r0 =>
      simp only [process_file, hl] at hres
      by_cases hc : r0.status = FileStatus.Active ∧
          needs_renewal env.storage_params r0 env.now_check = false
      · rw [if_pos hc] at hres
        cases hres
        exact absurd rfl hcalls
      · rw [if_neg hc] at hres
        exact pf_upload_entry_exists id id id reg path [] env res cid hres hup
    | none =>
      simp only [process_file, hl] at hres
      exact pf_upload_entry_exists id id id _ path _ env res cid hres hup

/-- Witness for claim C10 at a concrete successful run. -/
theorem claim10_witness :
    ∃ r1, (Mutation.uploaded, r1) ∈
      ((process_file id id id [] sample_path env_ok).getD
        ⟨Except.ok (), [], [], []⟩).trace := by
  have h := claim10_endpoint_amended [] sample_path env_ok
    ((process_file id id id [] sample_path env_ok).getD
      ⟨Except.ok (), [], [], []⟩) (by rfl)
  exact h.2 "cidA" rfl (by decide)

/-! ## Claim C3: size eligibility filter -/

theorem mem_scan (entries : List FsEntry) (p : FPath) :
    p ∈ scan_target_folder entries ↔
      ∃ e ∈ entries, e.path = p ∧ e.is_file = true ∧
        ¬ (e.size < 1048576) ∧ ¬ (1073741824 < e.size) := by
  simp only [scan_target_folder, List.mem_map, List.mem_filter,
    Bool.and_eq_true, Bool.not_eq_true', decide_eq_false_iff_not]
  constructor
  · rintro ⟨e, ⟨he, ⟨hf, h1⟩, h2⟩, hp⟩
    exact ⟨e, he, hp, hf, h1, h2⟩
  · rintro ⟨e, he, hp, hf, h1, h2⟩
    exact ⟨e, ⟨he, ⟨hf, h1⟩, h2⟩, hp⟩

theorem pf_wait_id_lookup_ne (reg : Registry) (path : FPath)
    (trace : List (Mutation × FileRecord)) (cid : String)
    (resp : PurchaseResponse) (env : ProcessEnv) (res : ProcessResult)
    (k : FPath) (h : pf_wait_step id reg path trace cid resp env = some res)
    (hk : k ≠ path) :
    Registry.lookup res.registry k = Registry.lookup reg k := by
  cases hw : env.wait_result with
  | ok st =>
    simp only [pf_wait_step, hw, id_eq] at h
    cases hr : Registry.lookup reg path with
    | none =>
      rw [hr] at h
      exact Option.noConfusion h
    | some r3 =>
      rw [hr] at h
      cases h
      exact lookup_store_ne _ _ _ _ hk
  | error e =>
    simp only [pf_wait_step, hw, id_eq] at h
    cases hr : Registry.lookup reg path with
    | none =>
      rw [hr] at h
      exact Option.noConfusion h
    | some r3 =>
      rw [hr] at h
      cases h
      exact lookup_store_ne _ _ _ _ hk

theorem pf_purchase_id_lookup_ne (reg : Registry) (path : FPath)
    (trace : List (Mutation × FileRecord)) (cid : String) (env : ProcessEnv)
    (res : ProcessResult) (k : FPath)
    (h : pf_purchase_step id id reg path trace cid env = some res)
    (hk : k ≠ path) :
    Registry.lookup res.registry k = Registry.lookup reg k := by
  cases hp : env.purchase_result with
  | error e =>
    simp only [pf_purchase_step, hp, id_eq] at h
    cases hr : Registry.lookup reg path with
    | none =>
      rw [hr] at h
      exact Option.noConfusion h
    | some r2 =>
      rw [hr] at h
      cases h
      exact lookup_store_ne _ _ _ _ hk
  | ok resp =>
    simp only [pf_purchase_step, hp, id_eq] at h
    cases hr : Registry.lookup reg path with
    | none =>
      rw [hr] at h
      exact Option.noConfusion h
    | some r2 =>
      rw [hr] at h
      rw [pf_wait_id_lookup_ne _ path _ cid resp env res k h hk]
      exact lookup_store_ne _ _ _ _ hk

theorem pf_upload_id_lookup_ne (reg : Registry) (path : FPath)
    (trace : List (Mutation × FileRecord)) (env : ProcessEnv)
    (res : ProcessResult) (k : FPath)
    (h : pf_upload_step id id id reg path trace env = some res)
    (hk : k ≠ path) :
    Registry.lookup res.registry k = Registry.lookup reg k := by
  cases hu : env.upload_result with
  | error e =>
    simp only [pf_upload_step, hu, id_eq] at h
    cases hr : Registry.lookup reg path with
    | none =>
      rw [hr] at h
      exact Option.noConfusion h
    | some r =>
      rw [hr] at h
      cases h
      exact lookup_store_ne _ _ _ _ hk
  | ok cid =>
    simp only [pf_upload_step, hu, id_eq] at h
    cases hr : Registry.lookup reg path with
    | none =>
      rw [hr] at h
      exact Option.noConfusion h
    | some r =>
      rw [hr] at h
      rw [pf_purchase_id_lookup_ne _ path _ cid env res k h hk]
      exact lookup_store_ne _ _ _ _ hk

theorem process_file_id_lookup_ne (reg : Registry) (path : FPath)
    (env : ProcessEnv) (res : ProcessResult) (k : FPath)
    (h : process_file id id id reg path env = some res) (hk : k ≠ path) :
    Registry.lookup res.registry k = Registry.lookup reg k := by
  cases hl : Registry.lookup reg path with
  | some r0 =>
    simp only [process_file, hl] at h
    by_cases hc : r0.status = FileStatus.Active ∧
        needs_renewal env.storage_params r0 env.now_check = false
    · rw [if_pos hc] at h
      cases h
      rfl
    · rw [if_neg hc] at h
      exact pf_upload_id_lookup_ne reg path [] env res k h hk
  | none =>
    simp only [process_file, hl] at h
    rw [pf_upload_id_lookup_ne _ path _ env res k h hk]
    exact lookup_store_ne _ _ _ _ hk

theorem process_one_lookup_ne (reg : Registry) (q : FPath) (env : ProcessEnv)
    (k : FPath) (hk : k ≠ q) :
    Registry.lookup (process_one reg q env) k = Registry.lookup reg k := by
  unfold process_one
  cases hpf : process_file id id id reg q env with
  | none => simp only [hpf]
  | some res =>
    simp only [hpf]
    have hr := process_file_id_lookup_ne reg q env res k hpf hk
    cases hres : res.result with
    | ok u =>
      simp only [hres]
      exact hr
    | error e =>
      simp only [hres]
      cases hlq : Registry.lookup res.registry q with
      | some r =>
        simp only [hlq]
        rw [lookup_store_ne _ _ _ _ hk]
        exact hr
      | none =>
        simp only [hlq]
        rw [lookup_store_ne _ _ _ _ hk]
        exact hr

theorem foldl_process_one_ne (l : List FPath) (reg : Registry)
    (envOf : FPath → ProcessEnv) (k : FPath) (hk : ∀ q ∈ l, k ≠ q) :
    Registry.lookup
      (l.foldl (fun acc p => process_one acc p (envOf p)) reg) k =
      Registry.lookup reg k := by
  induction l generalizing reg with
  | nil => rfl
  | cons q rest ih =>
    simp only [List.foldl_cons]
    rw [ih _ (fun q2 hq2 => hk q2 (List.mem_cons_of_mem _ hq2)),
      process_one_lookup_ne reg q (envOf q) k (hk q (List.mem_cons_self _ _))]

theorem foldl_periodic_ne (l : List FPath) (reg0 reg : Registry)
    (envOf : FPath → ProcessEnv) (k : FPath) (hk : ∀ q ∈ l, k ≠ q) :
    Registry.lookup
      (l.foldl (fun acc p =>
        if Registry.lookup reg0 p = none then
          match process_file id id id acc p (envOf p) with
          | none => acc
          | some res => res.registry
        else acc) reg) k = Registry.lookup reg k := by
  induction l generalizing reg with
  | nil => rfl
  | cons q rest ih =>
    simp only [List.foldl_cons]
    rw [ih _ (fun q2 hq2 => hk q2 (List.mem_cons_of_mem _ hq2))]
    by_cases hq0 : Registry.lookup reg0 q = none
    · rw [if_pos hq0]
      cases hpf : process_file id id id reg q (envOf q) with
      | none => rfl
      | some res =>
        exact process_file_id_lookup_ne reg q (envOf q) res k hpf
          (hk q (List.mem_cons_self _ _))
    · rw [if_neg hq0]

/-- Counterexample to claim C3 as stated: a regular file of exactly
1073741824 bytes, that is 2 to the 30, lies outside the half open
interval of the claim, yet the scan keeps it (the source skips only
sizes strictly above 1 GiB) and processing it creates a registry
entry. -/
theorem claim3_eligibility_counterexample :
    (2 ^ 30 : Nat) = 1073741824 ∧
    ¬ ((1073741824 : Nat) < 2 ^ 30) ∧
    scan_target_folder entries_boundary = [sample_path] ∧
    (Registry.lookup (process_files [] entries_boundary (fun _ => env_ok))
      sample_path).isSome = true := by
  exact ⟨by decide, by decide, by decide, by decide⟩

/-- Claim C3 as amended: for every file whose size is outside the closed
interval from 1048576 to 1073741824 bytes (that is, below 1 MiB or
strictly above 1 GiB), the startup scan does not list it, the startup
processing and the periodic reconciliation leave its registry entry
state unchanged (in particular they never create one), and the watcher
never accepts it. -/
theorem claim3_eligibility_amended (entries : List FsEntry) (p : FPath)
    (reg : Registry) (envOf : FPath → ProcessEnv)
    (hbad : ∀ e ∈ entries, e.path = p →
      e.is_file = false ∨ e.size < 1048576 ∨ 1073741824 < e.size) :
    p ∉ scan_target_folder entries ∧
    Registry.lookup (process_files reg entries envOf) p =
      Registry.lookup reg p ∧
    Registry.lookup (periodic_check reg entries envOf) p =
      Registry.lookup reg p ∧
    (∀ b s s2, s < 1048576 ∨ 1073741824 < s →
      watcher_accepts b s s2 = false) := by
  have hscan : p ∉ scan_target_folder entries := by
    intro hmem
    obtain ⟨e, he, hp, hf, h1, h2⟩ := (mem_scan entries p).mp hmem
    rcases hbad e he hp with h | h | h
    · rw [hf] at h
      exact Bool.noConfusion h
    · omega
    · omega
  have hneq : ∀ q ∈ scan_target_folder entries, p ≠ q :=
    fun q hq hpq => hscan (hpq ▸ hq)
  refine ⟨hscan, ?_, ?_, ?_⟩
  · simp only [process_files]
    exact foldl_process_one_ne _ reg envOf p hneq
  · simp only [periodic_check]
    exact foldl_periodic_ne _ reg reg envOf p hneq
  · intro b s s2 hs
    rcases hs with h | h <;>
      simp [watcher_accepts, decide_eq_true h]

/-- Witness for claim C3 at a concrete 100 byte file: no scan entry, no
registry change, watcher rejects. -/
theorem claim3_eligibility_witness :
    sample_path ∉ scan_target_folder [⟨sample_path, true, 100⟩] ∧
    Registry.lookup (process_files [] [⟨sample_path, true, 100⟩]
      (fun _ => env_ok)) sample_path = Registry.lookup [] sample_path ∧
    Registry.lookup (periodic_check [] [⟨sample_path, true, 100⟩]
      (fun _ => env_ok)) sample_path = Registry.lookup [] sample_path ∧
    (∀ b s s2, s < 1048576 ∨ 1073741824 < s →
      watcher_accepts b s s2 = false) :=
  claim3_eligibility_amended [⟨sample_path, true, 100⟩] sample_path []
    (fun _ => env_ok) (by decide)

/-! ## Claim C2: round trip through the two on-disk layouts -/

theorem last_dot_none (ys : List Char) (h : '.' ∉ ys) :
    last_dot_index ys = none := by
  induction ys with
  | nil => rfl
  | cons c rest ih =>
    simp only [last_dot_index]
    rw [ih (fun hm => h (List.mem_cons_of_mem _ hm))]
    have hc : ¬ c = '.' := fun hc => h (by rw [hc]; exact List.mem_cons_self _ _)
    rw [if_neg hc]

theorem last_dot_append (ys : List Char) (hy : '.' ∉ ys) (xs : List Char) :
    last_dot_index (xs ++ '.' :: ys) = some xs.length := by
  induction xs with
  | nil =>
    simp only [List.nil_append, last_dot_index, last_dot_none ys hy]
    simp
  | cons x xs ih =>
    rw [List.cons_append]
    simp only [last_dot_index]
    rw [ih]
    rfl

theorem last_dot_spec (k : List Char) : ∀ j, last_dot_index k = some j →
    k.take j ++ '.' :: k.drop (j + 1) = k := by
  induction k with
  | nil => intro j h; exact Option.noConfusion h
  | cons c rest ih =>
    intro j h
    simp only [last_dot_index] at h
    cases hld : last_dot_index rest with
    | some i =>
      rw [hld] at h
      obtain rfl : j = i + 1 := (Option.some.inj h).symm
      simp only [List.take_succ_cons, List.drop_succ_cons, List.cons_append]
      rw [ih i hld]
    | none =>
      rw [hld] at h
      by_cases hc : c = '.'
      · rw [if_pos hc] at h
        obtain rfl : j = 0 := (Option.some.inj h).symm
        simp [hc]
      · rw [if_neg hc] at h
        exact Option.noConfusion h

theorem stem_of_no_ext (n : FName) (h : (split_stem_ext n).2 = none) :
    (split_stem_ext n).1 = n := by
  cases hld : last_dot_index n with
  | none => simp [split_stem_ext, hld]
  | some j =>
    cases j with
    | zero => simp [split_stem_ext, hld]
    | succ i =>
      simp [split_stem_ext, hld] at h

theorem ext_reconstruct (n e : FName) (h : (split_stem_ext n).2 = some e) :
    n = (split_stem_ext n).1 ++ '.' :: e := by
  cases hld : last_dot_index n with
  | none => simp [split_stem_ext, hld] at h
  | some j =>
    cases j with
    | zero => simp [split_stem_ext, hld] at h
    | succ i =>
      simp only [split_stem_ext, hld] at h ⊢
      obtain rfl : e = n.drop (i + 2) := (Option.some.inj h).symm
      exact (last_dot_spec n (i + 1) hld).symm

theorem with_ext_json_of_no_ext (n : FName) (hx : extension_of n = none) :
    with_extension n jsonExt = n ++ '.' :: jsonExt := by
  unfold with_extension
  rw [stem_of_no_ext n hx]
  rw [if_neg (by decide : ¬ (jsonExt = []))]

theorem split_append_json (n : FName) (hne : n ≠ []) :
    split_stem_ext (n ++ '.' :: jsonExt) = (n, some jsonExt) := by
  have hld := last_dot_append jsonExt (by decide) n
  obtain ⟨m, hm⟩ : ∃ m, n.length = m + 1 := by
    cases n with
    | nil => exact absurd rfl hne
    | cons a l => exact ⟨l.length, rfl⟩
  have h1 : (n ++ '.' :: jsonExt).take (m + 1) = n := by
    rw [← hm]
    exact List.take_left n ('.' :: jsonExt)
  have h2 : (n ++ '.' :: jsonExt).drop (m + 2) = jsonExt := by
    rw [show n ++ '.' :: jsonExt = (n ++ ['.']) ++ jsonExt by simp]
    rw [show m + 2 = (n ++ ['.']).length by simp [hm]]
    exact List.drop_left _ _
  rw [hm] at hld
  simp [split_stem_ext, hld, h1, h2]

theorem ext_of_append_json (n : FName) (hne : n ≠ []) :
    extension_of (n ++ '.' :: jsonExt) = some jsonExt := by
  unfold extension_of
  rw [split_append_json n hne]

theorem strip_of_append_json (n : FName) (hne : n ≠ []) :
    with_extension (n ++ '.' :: jsonExt) [] = n := by
  simp [with_extension, split_append_json n hne]

theorem json_name_inj (n1 n2 : FName) (h1 : extension_of n1 = some jsonExt)
    (h2 : extension_of n2 = some jsonExt)
    (heq : with_extension n1 [] = with_extension n2 []) : n1 = n2 := by
  have r1 := ext_reconstruct n1 jsonExt h1
  have r2 := ext_reconstruct n2 jsonExt h2
  have s1 : with_extension n1 [] = (split_stem_ext n1).1 := by
    simp [with_extension]
  have s2 : with_extension n2 [] = (split_stem_ext n2).1 := by
    simp [with_extension]
  rw [s1, s2] at heq
  rw [r1, r2, heq]

theorem map_last_length (f : FName → FName) : ∀ l : FPath,
    (map_last f l).length = l.length := by
  intro l
  induction l with
  | nil => rfl
  | cons n rest ih =>
    cases rest with
    | nil => rfl
    | cons m r =>
      simp only [map_last, List.length_cons] at ih ⊢
      omega

theorem map_last_append (f : FName → FName) (ds : List FName) (n : FName) :
    map_last f (ds ++ [n]) = ds ++ [f n] := by
  induction ds with
  | nil => simp [map_last]
  | cons d ds ih =>
    cases ds with
    | nil => simp [map_last]
    | cons d2 ds2 =>
      rw [List.cons_append]
      rw [show map_last f (d :: ((d2 :: ds2) ++ [n])) =
        d :: map_last f ((d2 :: ds2) ++ [n]) from rfl]
      rw [ih]
      simp

theorem path_extension_append (ds : List FName) (n : FName) :
    path_extension (ds ++ [n]) = extension_of n := by
  induction ds with
  | nil => rfl
  | cons d ds ih =>
    cases ds with
    | nil => rfl
    | cons d2 ds2 =>
      simp only [List.cons_append, path_extension] at ih ⊢
      exact ih

theorem strip_root_append (t rel : FPath) : strip_root t (t ++ rel) = some rel := by
  induction t with
  | nil => rfl
  | cons r rs ih =>
    simp [strip_root, ih]

theorem append_inj_right {α : Type} (t : List α) (a b : List α)
    (h : t ++ a = t ++ b) : a = b := by
  induction t with
  | nil => exact h
  | cons x xs ih =>
    injection h with _ h2
    exact ih h2

theorem json_key_inj : ∀ k1 k2 : FPath,
    path_extension k1 = some jsonExt → path_extension k2 = some jsonExt →
    map_last (fun m => with_extension m []) k1 =
      map_last (fun m => with_extension m []) k2 → k1 = k2 := by
  intro k1
  induction k1 with
  | nil =>
    intro k2 h1 _ _
    exact absurd h1 (by simp [path_extension])
  | cons n1 rest1 ih =>
    intro k2 h1 h2 heq
    cases k2 with
    | nil => exact absurd h2 (by simp [path_extension])
    | cons n2 rest2 =>
      cases rest1 with
      | nil =>
        cases rest2 with
        | nil =>
          simp only [path_extension] at h1 h2
          simp only [map_last, List.cons.injEq, and_true] at heq
          rw [json_name_inj n1 n2 h1 h2 heq]
        | cons m2 r2 =>
          exfalso
          have hlen := congrArg List.length heq
          simp only [map_last, List.length_cons, List.length_nil] at hlen
          have := map_last_length (fun m => with_extension m []) (m2 :: r2)
          simp only [List.length_cons] at this
          omega
      | cons m1 r1 =>
        cases rest2 with
        | nil =>
          exfalso
          have hlen := congrArg List.length heq
          simp only [map_last, List.length_cons, List.length_nil] at hlen
          have := map_last_length (fun m => with_extension m []) (m1 :: r1)
          simp only [List.length_cons] at this
          omega
        | cons m2 r2 =>
          simp only [path_extension] at h1 h2
          simp only [map_last, List.cons.injEq] at heq
          rw [heq.1, ih (m2 :: r2) h1 h2 heq.2]

theorem flat_fold_inv (t rel : FPath) (v : FileRecord) :
    ∀ (d : Disk) (acc : Registry),
      Registry.lookup acc (t ++ rel) = some v →
      (∀ kv ∈ d, kv.1 = rel → kv.2 = v) →
      Registry.lookup
        (d.foldl (fun acc kv => Registry.store acc (t ++ kv.1) kv.2) acc)
        (t ++ rel) = some v := by
  intro d
  induction d with
  | nil =>
    intro acc hacc _
    exact hacc
  | cons kv rest ih =>
    intro acc hacc hall
    simp only [List.foldl_cons]
    apply ih
    · by_cases hk : kv.1 = rel
      · rw [hall kv (List.mem_cons_self _ _) hk, hk, lookup_store_self]
      · rw [lookup_store_ne]
        · exact hacc
        · exact fun he => hk (append_inj_right t rel kv.1 he).symm
    · exact fun kv2 h2 => hall kv2 (List.mem_cons_of_mem _ h2)

theorem flat_fold_main (t rel : FPath) (v : FileRecord) :
    ∀ (d : Disk) (acc : Registry),
      (rel, v) ∈ d →
      (∀ kv ∈ d, kv.1 = rel → kv.2 = v) →
      Registry.lookup
        (d.foldl (fun acc kv => Registry.store acc (t ++ kv.1) kv.2) acc)
        (t ++ rel) = some v := by
  intro d
  induction d with
  | nil =>
    intro acc hmem _
    exact absurd hmem (List.not_mem_nil _)
  | cons kv rest ih =>
    intro acc hmem hall
    simp only [List.foldl_cons]
    by_cases hk : kv.1 = rel
    · apply flat_fold_inv
      · rw [hall kv (List.mem_cons_self _ _) hk, hk, lookup_store_self]
      · exact fun kv2 h2 => hall kv2 (List.mem_cons_of_mem _ h2)
    · apply ih
      · rcases List.mem_cons.mp hmem with h | h
        · exfalso
          rw [← h] at hk
          exact hk rfl
        · exact h
      · exact fun kv2 h2 => hall kv2 (List.mem_cons_of_mem _ h2)

theorem struct_fold_inv (t K : FPath) (v : FileRecord) :
    ∀ (d : Disk) (acc : Registry),
      Registry.lookup acc K = some v →
      (∀ kv ∈ d, path_extension kv.1 = some jsonExt →
        t ++ map_last (fun n => with_extension n []) kv.1 = K → kv.2 = v) →
      Registry.lookup
        (d.foldl (fun acc kv =>
          if path_extension kv.1 = some jsonExt then
            Registry.store acc
              (t ++ map_last (fun n => with_extension n []) kv.1) kv.2
          else acc) acc) K = some v := by
  intro d
  induction d with
  | nil =>
    intro acc hacc _
    exact hacc
  | cons kv rest ih =>
    intro acc hacc hall
    simp only [List.foldl_cons]
    apply ih
    · by_cases hext : path_extension kv.1 = some jsonExt
      · rw [if_pos hext]
        by_cases hkey : t ++ map_last (fun n => with_extension n []) kv.1 = K
        · rw [hall kv (List.mem_cons_self _ _) hext hkey, hkey,
            lookup_store_self]
        · rw [lookup_store_ne]
          · exact hacc
          · exact fun he => hkey he.symm
      · rw [if_neg hext]
        exact hacc
    · exact fun kv2 h2 => hall kv2 (List.mem_cons_of_mem _ h2)

theorem struct_fold_main (t K0 : FPath) (v : FileRecord) :
    ∀ (d : Disk) (acc : Registry),
      (K0, v) ∈ d →
      path_extension K0 = some jsonExt →
      (∀ kv ∈ d, path_extension kv.1 = some jsonExt →
        map_last (fun n => with_extension n []) kv.1 =
          map_last (fun n => with_extension n []) K0 → kv.2 = v) →
      Registry.lookup
        (d.foldl (fun acc kv =>
          if path_extension kv.1 = some jsonExt then
            Registry.store acc
              (t ++ map_last (fun n => with_extension n []) kv.1) kv.2
          else acc) acc)
        (t ++ map_last (fun n => with_extension n []) K0) = some v := by
  intro d
  induction d with
  | nil =>
    intro acc hmem _ _
    exact absurd hmem (List.not_mem_nil _)
  | cons kv rest ih =>
    intro acc hmem hext0 hall
    simp only [List.foldl_cons]
    by_cases hcond : path_extension kv.1 = some jsonExt ∧
        map_last (fun n => with_extension n []) kv.1 =
          map_last (fun n => with_extension n []) K0
    · obtain ⟨hext, hkey⟩ := hcond
      rw [if_pos hext]
      apply struct_fold_inv
      · rw [hall kv (List.mem_cons_self _ _) hext hkey, hkey,
          lookup_store_self]
      · intro kv2 h2 hext2 hkey2
        exact hall kv2 (List.mem_cons_of_mem _ h2) hext2
          (append_inj_right t _ _ hkey2)
    · have hmem2 : (K0, v) ∈ rest := by
        rcases List.mem_cons.mp hmem with h | h
        · exfalso
          exact hcond (by rw [← h]; exact ⟨hext0, rfl⟩)
        · exact h
      by_cases hext : path_extension kv.1 = some jsonExt
      · rw [if_pos hext]
        exact ih _ hmem2 hext0
          (fun kv2 h2 => hall kv2 (List.mem_cons_of_mem _ h2))
      · rw [if_neg hext]
        exact ih _ hmem2 hext0
          (fun kv2 h2 => hall kv2 (List.mem_cons_of_mem _ h2))

/-- Counterexample to claim C2 as stated: in the Structured layout,
saving the record of the file a.mkv under root r writes the sidecar
a.json (with_extension replaces the existing extension), and reloading
strips the json extension and rejoins, keying the record at a, not at
a.mkv. The reloaded registry holds nothing at the original path; the
record surfaces under the wrong key. -/
theorem claim2_roundtrip_counterexample :
    (save_structured_record [] [['r']] [['r'], ['a', '.', 'm', 'k', 'v']]
        rec_active).map
      (fun d2 => Registry.lookup (load_structured_records d2 [['r']])
        [['r'], ['a', '.', 'm', 'k', 'v']]) = some none ∧
    (save_structured_record [] [['r']] [['r'], ['a', '.', 'm', 'k', 'v']]
        rec_active).map
      (fun d2 => Registry.lookup (load_structured_records d2 [['r']])
        [['r'], ['a']]) = some (some rec_active) ∧
    (some (none : Option FileRecord)) ≠ some (some rec_active) := by
  exact ⟨by decide, by decide, by decide⟩

/-- Claim C2 as amended: the save and reload round trip reproduces an
equal record under the same absolute path for every file in the
Flattened layout (given a duplicate free manifest), and in the
Structured layout exactly when the file name carries no extension; a
name with an extension is rekeyed with that extension stripped, as the
counterexample shows. -/
theorem claim2_roundtrip_amended (t rel : FPath) (rec : FileRecord)
    (fdisk sdisk : Disk) :
    (rel ≠ [] → (fdisk.map Prod.fst).Nodup →
      ∃ d1, save_flattened_record fdisk t (t ++ rel) rec = some d1 ∧
        Registry.lookup (load_flattened_records d1 t) (t ++ rel) = some rec) ∧
    (∀ ds n, rel = ds ++ [n] → n ≠ [] → extension_of n = none →
      (sdisk.map Prod.fst).Nodup →
      ∃ d2, save_structured_record sdisk t (t ++ rel) rec = some d2 ∧
        Registry.lookup (load_structured_records d2 t) (t ++ rel) =
          some rec) := by
  constructor
  · intro _ hnd
    refine ⟨Registry.store fdisk rel rec, ?_, ?_⟩
    · simp [save_flattened_record, strip_root_append]
    · unfold load_flattened_records
      apply flat_fold_main
      · exact mem_store_self _ _ _
      · intro kv hkv hk1
        have hkv2 : (kv.1, kv.2) ∈ Registry.store fdisk rel rec := hkv
        rw [hk1] at hkv2
        exact store_key_eq_val fdisk rel rec kv.2 hnd hkv2
  · intro ds n hds hne hext hnd
    subst hds
    have hwe : with_extension n jsonExt = n ++ '.' :: jsonExt :=
      with_ext_json_of_no_ext n hext
    have hK0 : map_last (fun m => with_extension m jsonExt) (ds ++ [n]) =
        ds ++ [n ++ '.' :: jsonExt] := by
      rw [map_last_append, hwe]
    have hKext : path_extension (ds ++ [n ++ '.' :: jsonExt]) = some jsonExt := by
      rw [path_extension_append]
      exact ext_of_append_json n hne
    have hstrip : map_last (fun m => with_extension m [])
        (ds ++ [n ++ '.' :: jsonExt]) = ds ++ [n] := by
      rw [map_last_append, strip_of_append_json n hne]
    refine ⟨Registry.store sdisk (ds ++ [n ++ '.' :: jsonExt]) rec, ?_, ?_⟩
    · simp only [save_structured_record, strip_root_append, Option.map_some']
      rw [hK0]
    · unfold load_structured_records
      rw [show t ++ (ds ++ [n]) = t ++ map_last (fun m => with_extension m [])
        (ds ++ [n ++ '.' :: jsonExt]) by rw [hstrip]]
      apply struct_fold_main
      · exact mem_store_self _ _ _
      · exact hKext
      · intro kv hkv hext2 hkey2
        have hinj : kv.1 = ds ++ [n ++ '.' :: jsonExt] :=
          json_key_inj kv.1 _ hext2 hKext hkey2
        have hkv2 : (kv.1, kv.2) ∈
            Registry.store sdisk (ds ++ [n ++ '.' :: jsonExt]) rec := hkv
        rw [hinj] at hkv2
        exact store_key_eq_val sdisk _ rec kv.2 hnd hkv2

/-- Witness for claim C2: a file named mov (no extension) under root r
round trips through both layouts from an empty output state. -/
theorem claim2_roundtrip_witness :
    (∃ d1, save_flattened_record [] [['r']]
        ([['r']] ++ [['m', 'o', 'v']]) rec_active = some d1 ∧
      Registry.lookup (load_flattened_records d1 [['r']])
        ([['r']] ++ [['m', 'o', 'v']]) = some rec_active) ∧
    (∃ d2, save_structured_record [] [['r']]
        ([['r']] ++ [['m', 'o', 'v']]) rec_active = some d2 ∧
      Registry.lookup (load_structured_records d2 [['r']])
        ([['r']] ++ [['m', 'o', 'v']]) = some rec_active) := by
  have h := claim2_roundtrip_amended [['r']] [['m', 'o', 'v']] rec_active [] []
  exact ⟨h.1 (by decide) (by decide),
    h.2 [] ['m', 'o', 'v'] rfl (by decide) (by decide) (by decide)⟩
